import Mathlib

/-!
# Verification of the rssh SSH-2 client handshake core

A shallow embedding, in Lean 4, of the packet framer, binary codec,
buffered non-blocking reader and handshake state machine of the rssh
repository.  Bytes are modelled as `Nat` values below 256, byte strings as
`List Nat`, Rust `usize` arithmetic as `Nat` with explicit overflow checks
against `2^64 - 1`, and fallible Rust code as `Option`/`Except`.
External cryptographic primitives (SHA-256, X25519 agreement, RSA
verification, the system RNG) are abstracted as function parameters; every
byte fed into them is modelled exactly.
-/

/-- `usize::MAX` on the 64-bit targets the crate is built for. -/
def USIZE_MAX : Nat := 2 ^ 64 - 1

/-- `u32::MAX`. -/
def U32_MAX : Nat := 2 ^ 32 - 1

/-- Rust `usize::checked_add`, as used by the `try_add!` macro in
`src/transport.rs`. -/
def checked_add (a b : Nat) : Option Nat :=
  if a + b ≤ USIZE_MAX then some (a + b) else none

/-- Rust `usize::checked_sub`, as used by the `try_sub!` macro in
`src/transport.rs`. -/
def checked_sub (a b : Nat) : Option Nat :=
  if b ≤ a then some (a - b) else none

/-- `transport::ntoh`: big-endian decoding of the first four bytes. -/
def ntoh (b0 b1 b2 b3 : Nat) : Nat :=
  b0 * 2 ^ 24 + b1 * 2 ^ 16 + b2 * 2 ^ 8 + b3

/-- `transport::hton`: big-endian encoding of a `u32` into four bytes
(`as u8` truncation modelled by `% 256`). -/
def hton (n : Nat) : List Nat :=
  [n / 2 ^ 24 % 256, n / 2 ^ 16 % 256, n / 2 ^ 8 % 256, n % 256]

/-- `transport::compute_pad_len`.  `gen_range` abstracts
`rand::Rng::gen_range`; the rand crate guarantees `lo ≤ gen_range lo hi < hi`
whenever `lo < hi`.  The `as u32` / `as u8` casts of the final `Ok` value are
modelled by the `% 2^32` / `% 2^8` truncations. -/
def compute_pad_len (payload_len blk_size : Nat) (gen_range : Nat → Nat → Nat) :
    Option (Nat × Nat) := do
  let min_unit := max blk_size 8
  let s1 ← checked_add payload_len (5 + 255)
  let pkt_upperbound := min s1 U32_MAX
  let s2 ← checked_add payload_len (5 + 4)
  let pkt_lowerbound := max s2 (max min_unit 16)
  let max_pkt_len := pkt_upperbound - pkt_upperbound % min_unit
  let s3 ← checked_add pkt_lowerbound (min_unit - 1)
  let min_pkt_len := s3 / min_unit * min_unit
  let except_pad ← checked_add payload_len 5
  let max_pad_len ← checked_sub max_pkt_len except_pad
  let min_pad_len ← checked_sub min_pkt_len except_pad
  if 4 ≤ min_pad_len ∧ min_pad_len ≤ max_pad_len ∧ max_pad_len ≤ 255 then
    let pad_len := gen_range 0 ((max_pad_len - min_pad_len) / min_unit + 1) * min_unit
        + min_pad_len
    let pkt_len ← checked_add pad_len except_pad
    some (pkt_len % 2 ^ 32, pad_len % 2 ^ 8)
  else
    none

/-- Helper: a successful `checked_add` yields the sum and certifies no
overflow. -/
theorem checked_add_eq_some {a b c : Nat} (h : checked_add a b = some c) :
    c = a + b ∧ a + b ≤ USIZE_MAX := by
  unfold checked_add at h
  split at h
  · exact ⟨(Option.some_inj.1 h).symm, by assumption⟩
  · exact absurd h (by simp)

/-- Helper: a successful `checked_sub` yields the difference and certifies no
underflow. -/
theorem checked_sub_eq_some {a b c : Nat} (h : checked_sub a b = some c) :
    c = a - b ∧ b ≤ a := by
  unfold checked_sub at h
  split at h
  · exact ⟨(Option.some_inj.1 h).symm, by assumption⟩
  · exact absurd h (by simp)

/-- C2 (amended): every `(packet_length, padding_length)` pair chosen by
`compute_pad_len` satisfies `packet_length ≡ 0 (mod max(B, 8))`,
`padding_length ∈ [4, 255]`, and `packet_length = len(P) + 5 +
padding_length` (the computed `pkt_len` counts the whole 5-byte header);
for payload length 4 with block size 0, every admissible `padding_length`
is at least 7. -/
theorem compute_pad_len_invariants (payload blk : Nat) (gen : Nat → Nat → Nat)
    (hgen : ∀ lo hi, lo < hi → lo ≤ gen lo hi ∧ gen lo hi < hi)
    (pkt pad : Nat) (h : compute_pad_len payload blk gen = some (pkt, pad)) :
    pkt % max blk 8 = 0 ∧ 4 ≤ pad ∧ pad ≤ 255 ∧ pkt = payload + 5 + pad ∧
      (payload = 4 ∧ blk = 0 → 7 ≤ pad) := by
  unfold compute_pad_len at h
  simp only [bind, Option.bind_eq_some] at h
  obtain ⟨s1, hs1, h⟩ := h
  obtain ⟨s2, hs2, h⟩ := h
  obtain ⟨s3, hs3, h⟩ := h
  obtain ⟨ep, hep, h⟩ := h
  obtain ⟨mx, hmx, h⟩ := h
  obtain ⟨mn, hmn, h⟩ := h
  rw [checked_add_eq_some hs1 |>.1] at *
  split at h
  case isFalse => exact absurd h (by simp)
  case isTrue hguard =>
  obtain ⟨h4mn, hmnmx, hmx255⟩ := hguard
  rcases hca : checked_add (gen 0 ((mx - mn) / (blk ⊔ 8) + 1) * (blk ⊔ 8) + mn) ep with - | pk
  · rw [hca] at h; exact absurd h (by simp [Option.bind])
  rw [hca] at h
  simp only [Option.bind] at h
  obtain ⟨hpkt, hpad⟩ : pk % 2 ^ 32 = pkt ∧
      (gen 0 ((mx - mn) / (blk ⊔ 8) + 1) * (blk ⊔ 8) + mn) % 2 ^ 8 = pad := by
    have := Option.some_inj.1 h
    exact ⟨congrArg Prod.fst this, congrArg Prod.snd this⟩
  obtain ⟨hepv, -⟩ := checked_add_eq_some hep
  obtain ⟨hmxv, hmxle⟩ := checked_sub_eq_some hmx
  obtain ⟨hmnv, hmnle⟩ := checked_sub_eq_some hmn
  obtain ⟨hs2v, -⟩ := checked_add_eq_some hs2
  obtain ⟨hs3v, -⟩ := checked_add_eq_some hs3
  obtain ⟨hpkv, -⟩ := checked_add_eq_some hca
  set u := blk ⊔ 8 with hu
  set r := gen 0 ((mx - mn) / u + 1) with hr
  have hu8 : 8 ≤ u := le_max_right _ _
  have hrlt : r < (mx - mn) / u + 1 := (hgen 0 _ (Nat.succ_pos _)).2
  have hrle : r ≤ (mx - mn) / u := Nat.lt_succ_iff.1 hrlt
  have hrunit : r * u ≤ mx - mn :=
    le_trans (Nat.mul_le_mul_right _ hrle) (Nat.div_mul_le_self _ _)
  have hpadle : r * u + mn ≤ mx := by
    have h' := Nat.add_le_add_right hrunit mn
    rwa [Nat.sub_add_cancel hmnmx] at h'
  have hpadval : pad = r * u + mn := by
    rw [← hpad]
    exact Nat.mod_eq_of_lt (lt_of_le_of_lt (hpadle.trans hmx255) (by norm_num))
  have hup : min (payload + (5 + 255)) U32_MAX - min (payload + (5 + 255)) U32_MAX % u
      ≤ U32_MAX := le_trans (Nat.sub_le _ _) (Nat.min_le_right _ _)
  have hU32 : U32_MAX < 2 ^ 32 := by norm_num [U32_MAX]
  have hmxep : mx + ep = min (payload + (5 + 255)) U32_MAX
      - min (payload + (5 + 255)) U32_MAX % u := by
    rw [hmxv]; exact Nat.sub_add_cancel hmxle
  have hpkle : pk ≤ min (payload + (5 + 255)) U32_MAX
      - min (payload + (5 + 255)) U32_MAX % u := by
    rw [hpkv, ← hmxep]; exact Nat.add_le_add_right hpadle ep
  have hpklt : pk < 2 ^ 32 := lt_of_le_of_lt (hpkle.trans hup) hU32
  have hpktval : pkt = pk := by rw [← hpkt]; exact Nat.mod_eq_of_lt hpklt
  have hmnep : mn + ep = s3 / u * u := by rw [hmnv]; exact Nat.sub_add_cancel hmnle
  have hdvd : pk % u = 0 := by
    have h' : pk = (r + s3 / u) * u := by
      rw [hpkv, Nat.add_mul, Nat.add_assoc, hmnep]
    rw [h']; exact Nat.mul_mod_left _ _
  refine ⟨by rw [hpktval]; exact hdvd,
    hpadval ▸ le_trans h4mn (Nat.le_add_left mn _),
    hpadval ▸ (hpadle.trans hmx255),
    by rw [hpktval, hpkv, hpadval, hepv]; ring, ?_⟩
  rintro ⟨hp4, hb0⟩
  subst hp4 hb0
  have huc : u = 8 := by simp [hu]
  have hs2c : s2 = 13 := by rw [hs2v]
  have hs3c : s3 = 23 := by rw [hs3v, hs2c, huc]; decide
  have hmn7 : mn = 7 := by
    rw [hs3c, huc] at hmnep
    rw [hepv] at hmnep
    norm_num at hmnep
    omega
  rw [hpadval, hmn7]
  exact Nat.le_add_left 7 _

/-- C2 (counterexample): for payload length 4 and block size 0 the framer
chooses `(packet_length, padding_length) = (16, 7)` (here with the minimal
admissible random draw), and `16 ≠ 4 + 1 + 7`: the chosen `packet_length`
is not `len(P) + 1 + padding_length`. -/
theorem compute_pad_len_not_len_plus_one :
    compute_pad_len 4 0 (fun lo _ => lo) = some (16, 7) ∧ ¬ (16 = 4 + 1 + 7) := by
  refine ⟨by decide, by decide⟩

/-- C2 witness: the invariants instantiated at payload length 4, block size 0
and the minimal random draw. -/
theorem compute_pad_len_invariants_witness :
    16 % max 0 8 = 0 ∧ 4 ≤ 7 ∧ 7 ≤ 255 ∧ 16 = 4 + 5 + 7 ∧
      ((4 : Nat) = 4 ∧ (0 : Nat) = 0 → 7 ≤ 7) :=
  compute_pad_len_invariants 4 0 (fun lo _ => lo)
    (fun _ _ h => ⟨Nat.le_refl _, h⟩) 16 7 (by decide)

/-! ## Binary codec (`src/packet/decoder.rs`, `src/packet/encoder.rs`)

Byte strings are `List Nat` with entries below 256.  Rust `&str` values are
modelled as their UTF-8 byte lists; `str::from_utf8` success is the
`utf8Valid` predicate below. -/

/-- Success of `std::str::from_utf8`: the RFC 3629 well-formedness check on a
byte sequence. -/
def utf8Valid : List Nat → Bool
  | [] => true
  | b :: rest =>
    if b < 0x80 then utf8Valid rest
    else if 0xC2 ≤ b && b ≤ 0xDF then
      match rest with
      | c1 :: r => (0x80 ≤ c1 && c1 ≤ 0xBF) && utf8Valid r
      | _ => false
    else if b == 0xE0 then
      match rest with
      | c1 :: c2 :: r =>
        (0xA0 ≤ c1 && c1 ≤ 0xBF) && (0x80 ≤ c2 && c2 ≤ 0xBF) && utf8Valid r
      | _ => false
    else if (0xE1 ≤ b && b ≤ 0xEC) || b == 0xEE || b == 0xEF then
      match rest with
      | c1 :: c2 :: r =>
        (0x80 ≤ c1 && c1 ≤ 0xBF) && (0x80 ≤ c2 && c2 ≤ 0xBF) && utf8Valid r
      | _ => false
    else if b == 0xED then
      match rest with
      | c1 :: c2 :: r =>
        (0x80 ≤ c1 && c1 ≤ 0x9F) && (0x80 ≤ c2 && c2 ≤ 0xBF) && utf8Valid r
      | _ => false
    else if b == 0xF0 then
      match rest with
      | c1 :: c2 :: c3 :: r =>
        (0x90 ≤ c1 && c1 ≤ 0xBF) && (0x80 ≤ c2 && c2 ≤ 0xBF) &&
          (0x80 ≤ c3 && c3 ≤ 0xBF) && utf8Valid r
      | _ => false
    else if 0xF1 ≤ b && b ≤ 0xF3 then
      match rest with
      | c1 :: c2 :: c3 :: r =>
        (0x80 ≤ c1 && c1 ≤ 0xBF) && (0x80 ≤ c2 && c2 ≤ 0xBF) &&
          (0x80 ≤ c3 && c3 ≤ 0xBF) && utf8Valid r
      | _ => false
    else if b == 0xF4 then
      match rest with
      | c1 :: c2 :: c3 :: r =>
        (0x80 ≤ c1 && c1 ≤ 0x8F) && (0x80 ≤ c2 && c2 ≤ 0xBF) &&
          (0x80 ≤ c3 && c3 ≤ 0xBF) && utf8Valid r
      | _ => false
    else false

/-- `packet::decoder::DecoderError`. -/
inductive DecoderError
  | unsupportedType
  | unexpectedEOF
  | nonBoolean
  | utf8Error
  | serde
deriving DecidableEq, Repr

/-- A decoding step: consume a prefix of the input, produce a value and the
remaining bytes (`BinaryDecoder` advances `pos`; we return the suffix). -/
abbrev DecM (α : Type) := List Nat → Except DecoderError (α × List Nat)

/-- `BinaryDecoder::parse_u32`. -/
def parse_u32 : DecM Nat := fun l =>
  match l with
  | b0 :: b1 :: b2 :: b3 :: rest => .ok (ntoh b0 b1 b2 b3, rest)
  | _ => .error .unexpectedEOF

/-- `BinaryDecoder::parse_u8`. -/
def parse_u8 : DecM Nat := fun l =>
  match l with
  | b :: rest => .ok (b, rest)
  | _ => .error .unexpectedEOF

/-- `BinaryDecoder::parse_bytes`: a uint32 length then that many raw bytes. -/
def parse_bytes : DecM (List Nat) := fun l => do
  let (len, rest) ← parse_u32 l
  if rest.length < len then .error .unexpectedEOF
  else .ok (rest.take len, rest.drop len)

/-- `deserialize_bool`: one octet, `0` or `1`; anything else is
`NonBoolean`. -/
def de_bool : DecM Bool := fun l => do
  let (b, rest) ← parse_u8 l
  match b with
  | 0 => .ok (false, rest)
  | 1 => .ok (true, rest)
  | _ => .error .nonBoolean

/-- `deserialize_str` / `de_bytes` through `deserialize_bytes`: the raw bytes
of an SSH string. -/
def de_bytes : DecM (List Nat) := parse_bytes

/-- `deserialize_str`: an SSH string whose payload must be valid UTF-8. -/
def de_str : DecM (List Nat) := fun l => do
  let (bs, rest) ← parse_bytes l
  if utf8Valid bs then .ok (bs, rest) else .error .utf8Error

/-- Rust `str::split(',')` at the byte level (the separator is ASCII, so for
valid UTF-8 the byte-level and char-level splits agree).  On the empty
string it yields one empty piece, exactly as `"".split(',')` does. -/
def splitOnByte (sep : Nat) : List Nat → List (List Nat)
  | [] => [[]]
  | b :: rest =>
    if b = sep then [] :: splitOnByte sep rest
    else
      match splitOnByte sep rest with
      | h :: t => (b :: h) :: t
      | [] => [[b]]

/-- `packet::types::ServerHostKeyAlgorithm`: the one known name `ssh-rsa`
plus the catch-all `Unknown` variant holding the raw name. -/
inductive ServerHostKeyAlgorithm
  | SSH_RSA
  | Unknown (s : List Nat)
deriving DecidableEq, Repr

/-- The UTF-8 bytes of `"ssh-rsa"`. -/
def sshRsaBytes : List Nat := [115, 115, 104, 45, 114, 115, 97]

/-- `From<&str> for ServerHostKeyAlgorithm`. -/
def ServerHostKeyAlgorithm.fromBytes (s : List Nat) : ServerHostKeyAlgorithm :=
  if s = sshRsaBytes then .SSH_RSA else .Unknown s

/-- `AsRef<str> for ServerHostKeyAlgorithm`. -/
def ServerHostKeyAlgorithm.asBytes : ServerHostKeyAlgorithm → List Nat
  | .SSH_RSA => sshRsaBytes
  | .Unknown s => s

/-- `packet::decoder::de_name_list`, instantiated at
`ServerHostKeyAlgorithm`: decode an SSH string, require UTF-8, split on
`','` and convert each piece. -/
def de_name_list : DecM (List ServerHostKeyAlgorithm) := fun l => do
  let (s, rest) ← de_str l
  .ok ((splitOnByte 44 s).map ServerHostKeyAlgorithm.fromBytes, rest)

/-- `packet::encoder::EncoderError`. -/
inductive EncoderError
  | unsupportedType
  | dataTooLarge (n : Nat)
  | serde
deriving DecidableEq, Repr

/-- `serialize_u32`: big-endian bytes of a `u32` (`as u8` truncation as
`% 256`). -/
def ser_u32 (v : Nat) : List Nat :=
  [v / 2 ^ 24 % 256, v / 2 ^ 16 % 256, v / 2 ^ 8 % 256, v % 256]

/-- `serialize_bytes`: length check against `u32`, then uint32 length prefix
and the raw bytes. -/
def ser_bytes (v : List Nat) : Except EncoderError (List Nat) :=
  if v.length > 0xffffffff then .error (.dataTooLarge v.length)
  else .ok (ser_u32 v.length ++ v)

/-- The comma-joining loop of `ser_name_list`: a `','` is pushed before a
name only when the accumulated buffer is non-empty. -/
def nameListJoin (vals : List (List Nat)) : List Nat :=
  vals.foldl (fun buf v => if buf.isEmpty then buf ++ v else buf ++ [44] ++ v) []

/-- `packet::encoder::ser_name_list`: join the names with `','` and emit the
result as one SSH string. -/
def ser_name_list (val : List ServerHostKeyAlgorithm) : Except EncoderError (List Nat) :=
  ser_bytes (nameListJoin (val.map ServerHostKeyAlgorithm.asBytes))

/-- C8: the name-list codec does not round-trip the empty list.
`ser_name_list` of the empty list is the empty SSH string `00 00 00 00`
(as the claim states), but `de_name_list` of that empty SSH string yields
the one-element list `[Unknown("")]` — Rust's `"".split(',')` produces one
empty piece — and not the empty list.  This contradicts both the claim and
the repository's own `empty_name_list` decode test. -/
theorem name_list_empty_roundtrip_fails :
    ser_name_list [] = .ok [0, 0, 0, 0] ∧
      de_name_list [0, 0, 0, 0] = .ok ([ServerHostKeyAlgorithm.Unknown []], []) ∧
      [ServerHostKeyAlgorithm.Unknown []] ≠ ([] : List ServerHostKeyAlgorithm) := by
  refine ⟨rfl, rfl, by decide⟩

/-! ## Transcript hashing (`src/key.rs`, `src/handshake.rs`)

The ring `digest::Context` is modelled by the byte stream fed to it; the
exchange hash `H` is SHA-256 of that stream, so two contexts produce the
same `H` exactly when they are fed the same stream (and a differing stream
is precisely a violation of the prescribed hashing sequence). -/

/-- `packet::types::ServerKey` (`ssh-rsa`, mpint fields `e` then `n`). -/
inductive ServerKey
  | SSH_RSA (e n : List Nat)
deriving DecidableEq, Repr

/-- `key::KeyBuilderError`. -/
inductive KeyBuilderError
  | mk
deriving DecidableEq, Repr

/-- `key::KeyBuilder`. -/
structure KeyBuilder where
  v_c : Option (List Nat)
  v_s : Option (List Nat)
  i_c : Option (List Nat)
  i_s : Option (List Nat)
  k_s : Option (List Nat)
  e : Option (List Nat)
  f : Option (List Nat)
  k : Option (List Nat)
  server_key : Option ServerKey
deriving DecidableEq, Repr

/-- One `update_digest!` / `update_digest_string!` step of
`KeyBuilder::digest`: a missing field or a length exceeding `u32::MAX` is an
error; otherwise the big-endian uint32 length followed by the field bytes is
fed to the context. -/
def updateDigest (f : Option (List Nat)) : Except KeyBuilderError (List Nat) :=
  match f with
  | none => .error .mk
  | some bs =>
    if bs.length > 0xffffffff then .error .mk
    else .ok (hton bs.length ++ bs)

/-- `KeyBuilder::digest`: the byte stream fed to the hash context — the
eight fields in order `v_c, v_s, i_c, i_s, k_s, e, f, k`, each prefixed
with its big-endian uint32 length.  `H` is the digest of this stream. -/
def KeyBuilder.digestStream (kb : KeyBuilder) : Except KeyBuilderError (List Nat) := do
  let s1 ← updateDigest kb.v_c
  let s2 ← updateDigest kb.v_s
  let s3 ← updateDigest kb.i_c
  let s4 ← updateDigest kb.i_s
  let s5 ← updateDigest kb.k_s
  let s6 ← updateDigest kb.e
  let s7 ← updateDigest kb.f
  let s8 ← updateDigest kb.k
  pure (s1 ++ s2 ++ s3 ++ s4 ++ s5 ++ s6 ++ s7 ++ s8)

/-- `handshake::digest_bytes`, as invoked by `AlgorithmExchangeState::on_read`
with its `Result` discarded: when the length fits in a `u32` the context
receives the big-endian uint32 length then the bytes; on overflow the error
is ignored and the context receives nothing. -/
def digest_bytes_stream (bytes : List Nat) : List Nat :=
  if bytes.length > 0xffffffff then [] else hton bytes.length ++ bytes

/-- The byte stream fed to the hash context along the state-machine path:
`AlgorithmExchangeState::on_read` hashes `V_C`, `V_S`, `I_C`, `I_S` through
`digest_bytes` (length-prefixed), then `KeyExchangeState::on_read` feeds
`K_S`, `e`, `f`, `K` to `Context::update` directly, with no length
prefix. -/
def onReadHashStream (v_c v_s i_c i_s k_s e f k : List Nat) : List Nat :=
  digest_bytes_stream v_c ++ digest_bytes_stream v_s ++ digest_bytes_stream i_c ++
    digest_bytes_stream i_s ++ k_s ++ e ++ f ++ k

/-- C1: the two hashing implementations disagree.  On the transcript tuple
with all eight fields empty, `KeyBuilder::digest` feeds the hash 32 bytes
(eight big-endian uint32 zero lengths) while the
`AlgorithmExchangeState::on_read` / `KeyExchangeState::on_read` sequence
feeds it only 16 bytes (`K_S`, `e`, `f`, `K` get no length prefix), so the
two exchange hashes differ byte-for-byte on identical inputs. -/
theorem hash_streams_differ :
    KeyBuilder.digestStream
        ⟨some [], some [], some [], some [], some [], some [], some [], some [], none⟩
        = .ok [0, 0, 0, 0, 0, 0, 0, 0, 0, 0, 0, 0, 0, 0, 0, 0,
               0, 0, 0, 0, 0, 0, 0, 0, 0, 0, 0, 0, 0, 0, 0, 0] ∧
      onReadHashStream [] [] [] [] [] [] [] []
        = [0, 0, 0, 0, 0, 0, 0, 0, 0, 0, 0, 0, 0, 0, 0, 0] ∧
      ([0, 0, 0, 0, 0, 0, 0, 0, 0, 0, 0, 0, 0, 0, 0, 0, 0, 0, 0, 0, 0, 0,
        0, 0, 0, 0, 0, 0, 0, 0, 0, 0] : List Nat)
        ≠ [0, 0, 0, 0, 0, 0, 0, 0, 0, 0, 0, 0, 0, 0, 0, 0] := by
  refine ⟨rfl, rfl, by decide⟩

/-! ## Handshake errors and the version exchange (`src/handshake.rs`) -/

/-- `handshake::HandshakeError` (payload strings dropped).  The extra
`panicked` variant models Rust panics (`unreachable!`, out-of-bounds
slicing, `unwrap` on `Err`), which abort rather than return. -/
inductive HandshakeError
  | ioError
  | invalidVersionExchange
  | invalidAlgorithmNegotiation
  | invalidKexReply
  | kexFailed
  | serverKeyNotVerified
  | unknownCertType
  | panicked
deriving DecidableEq, Repr

/-- The UTF-8 bytes of `"SSH-2.0-"`. -/
def sshVersionMagic : List Nat := [83, 83, 72, 45, 50, 46, 48, 45]

/-- The UTF-8 bytes of `"\r\n"`. -/
def crlfBytes : List Nat := [13, 10]

/-- The read half of `handshake::version_exchange`: the line read up to and
including the first `\n` must start with `SSH-2.0-` and end with `\r\n`,
in which case `V_S` is the line minus the trailing CRLF (after a UTF-8
check); any other line is `InvalidVersionExchange`. -/
def version_exchange_read (buf : List Nat) : Except HandshakeError (List Nat) :=
  if sshVersionMagic.isPrefixOf buf && crlfBytes.isSuffixOf buf then
    let v_s := buf.take (buf.length - 2)
    if utf8Valid v_s then .ok v_s else .error .invalidVersionExchange
  else .error .invalidVersionExchange

/-- C9: the version exchange maps `b"SSH-2.0-OpenSSH_7.4\r\n"` to
`V_S = "SSH-2.0-OpenSSH_7.4"` (trailing CRLF stripped), and every received
line that does not both start with `SSH-2.0-` and end with `\r\n` yields
`InvalidVersionExchange`. -/
theorem version_exchange_read_spec (buf : List Nat)
    (h : ¬ (sshVersionMagic.isPrefixOf buf ∧ crlfBytes.isSuffixOf buf)) :
    version_exchange_read
        [83, 83, 72, 45, 50, 46, 48, 45, 79, 112, 101, 110, 83, 83, 72, 95,
         55, 46, 52, 13, 10]
      = .ok [83, 83, 72, 45, 50, 46, 48, 45, 79, 112, 101, 110, 83, 83, 72,
             95, 55, 46, 52] ∧
      version_exchange_read buf = .error .invalidVersionExchange := by
  refine ⟨rfl, ?_⟩
  unfold version_exchange_read
  rw [if_neg]
  intro hc
  rcases Bool.and_eq_true .. ▸ hc with ⟨h1, h2⟩
  exact h ⟨h1, h2⟩

/-- C9 witness: the input `b"Garbage\n"` fails the structural check, so the
theorem applies and yields `InvalidVersionExchange` for it. -/
theorem version_exchange_read_spec_witness :
    version_exchange_read
        [83, 83, 72, 45, 50, 46, 48, 45, 79, 112, 101, 110, 83, 83, 72, 95,
         55, 46, 52, 13, 10]
      = .ok [83, 83, 72, 45, 50, 46, 48, 45, 79, 112, 101, 110, 83, 83, 72,
             95, 55, 46, 52] ∧
      version_exchange_read [71, 97, 114, 98, 97, 103, 101, 10]
        = .error .invalidVersionExchange :=
  version_exchange_read_spec [71, 97, 114, 98, 97, 103, 101, 10] (by decide)

/-! ## Unencrypted packet framer, read paths (`src/transport.rs`)

`nb_read_exact` responses of the buffered reader are abstracted as a
function `reads : Nat → Option (List Nat)`: `some bs` models
`Async::Ready(bs)` and `none` models `Async::NotReady` (the buffered layer
itself is modelled concretely further below, and a successful
`nb_read_exact n` always returns exactly `n` bytes). -/

/-- The error kinds of `std::io::Error` that the framer's
`nb_read_packet` path can surface; `invalidData` carries the
`"Invalid header"` rejection. -/
inductive IoErrorKind
  | invalidData
  | other
deriving DecidableEq, Repr

/-- The `transport::TransportError` trait's constructors, as used by
`AsyncPacketTransport`. -/
inductive TransportError
  | io
  | invalidHeader
  | panicMsg
  | unspecified
deriving DecidableEq, Repr

/-- `futures::Async`. -/
inductive Async (α : Type)
  | ready (a : α)
  | notReady
deriving DecidableEq, Repr

/-- The `Some(rd_header)` arm of `UnencryptedStream::nb_read_packet`: read
`pkt_len - 1` body bytes and deliver the slice up to
`pkt_len - pad_len - 1`, resetting `rd_header`. -/
def nb_read_packet_body (reads : Nat → Option (List Nat)) (pkt_len pad_len : Nat) :
    Except IoErrorKind (Async (List Nat × Option (Nat × Nat))) :=
  match reads (pkt_len - 1) with
  | none => .ok .notReady
  | some buf => .ok (.ready (buf.take (pkt_len - pad_len - 1), none))

/-- `UnencryptedStream::nb_read_packet`.  The state is `rd_header`; the
result pairs the delivered payload slice with the new `rd_header`.  After a
valid header the source tail-calls itself with `rd_header` set, which lands
in the `Some` arm, `nb_read_packet_body`.  The `error .other` branch is
unreachable when `reads 5` honours the `nb_read_exact` contract of
returning exactly 5 bytes. -/
def nb_read_packet (reads : Nat → Option (List Nat)) :
    Option (Nat × Nat) → Except IoErrorKind (Async (List Nat × Option (Nat × Nat)))
  | none =>
    match reads 5 with
    | none => .ok .notReady
    | some buf =>
      match buf with
      | b0 :: b1 :: b2 :: b3 :: b4 :: _ =>
        let pkt_len := ntoh b0 b1 b2 b3
        let pad_len := b4
        if pkt_len < 16 || pkt_len < pad_len + 1 then .error .invalidData
        else nb_read_packet_body reads pkt_len pad_len
      | _ => .error .other
  | some (pkt_len, pad_len) => nb_read_packet_body reads pkt_len pad_len

/-- `transport::PacketReadState`. -/
inductive PacketReadState
  | idle
  | readPayload (pkt_len pad_len : Nat)
deriving DecidableEq, Repr

/-- `AsyncPacketTransport::try_read`.  The returned `Option (List Nat)` is
the byte slice handed to the state's `on_read` hook this step (if any).
Note the source computes `payload_len = pkt_len - pad_len - 1` in the
`ReadPayload` arm and then passes the whole `buf` to `on_read`. -/
def try_read (wants_read : Bool) (reads : Nat → Option (List Nat)) :
    PacketReadState → Except TransportError (PacketReadState × Option (List Nat))
  | .idle =>
    if wants_read then
      match reads 5 with
      | none => .ok (.idle, none)
      | some buf =>
        match buf with
        | b0 :: b1 :: b2 :: b3 :: b4 :: _ =>
          let pkt_len := ntoh b0 b1 b2 b3
          let pad_len := b4
          if pkt_len < 16 || pkt_len < pad_len + 1 then .error .invalidHeader
          else .ok (.readPayload pkt_len pad_len, none)
        | _ => .error .panicMsg
    else .ok (.idle, none)
  | .readPayload pkt_len pad_len =>
    match reads (pkt_len - 1) with
    | none => .ok (.readPayload pkt_len pad_len, none)
    | some buf => .ok (.idle, some buf)

/-- C5: on the read path, header parsing fails with the `InvalidHeader`
error exactly when `packet_length < 16` or
`packet_length < padding_length + 1`; a header within both bounds is
accepted (the state moves on to the body read).  In particular headers
`00 00 00 0F 04` and `00 00 00 10 10` are both rejected. -/
theorem header_validation (b0 b1 b2 b3 b4 : Nat) (reads : Nat → Option (List Nat))
    (hb : b0 < 256 ∧ b1 < 256 ∧ b2 < 256 ∧ b3 < 256 ∧ b4 < 256)
    (h5 : reads 5 = some [b0, b1, b2, b3, b4]) :
    (try_read true reads .idle = .error .invalidHeader ↔
      (ntoh b0 b1 b2 b3 < 16 ∨ ntoh b0 b1 b2 b3 < b4 + 1)) ∧
    (nb_read_packet reads none = .error .invalidData ↔
      (ntoh b0 b1 b2 b3 < 16 ∨ ntoh b0 b1 b2 b3 < b4 + 1)) ∧
    (¬ (ntoh b0 b1 b2 b3 < 16 ∨ ntoh b0 b1 b2 b3 < b4 + 1) →
      try_read true reads .idle = .ok (.readPayload (ntoh b0 b1 b2 b3) b4, none)) ∧
    try_read true (fun n => if n = 5 then some [0, 0, 0, 15, 4] else none) .idle
      = .error .invalidHeader ∧
    try_read true (fun n => if n = 5 then some [0, 0, 0, 16, 16] else none) .idle
      = .error .invalidHeader := by
  have hconc1 : try_read true (fun n => if n = 5 then some [0, 0, 0, 15, 4] else none) .idle
      = .error .invalidHeader := rfl
  have hconc2 : try_read true (fun n => if n = 5 then some [0, 0, 0, 16, 16] else none) .idle
      = .error .invalidHeader := rfl
  suffices h : (try_read true reads .idle = .error .invalidHeader ↔
      (ntoh b0 b1 b2 b3 < 16 ∨ ntoh b0 b1 b2 b3 < b4 + 1)) ∧
      (nb_read_packet reads none = .error .invalidData ↔
        (ntoh b0 b1 b2 b3 < 16 ∨ ntoh b0 b1 b2 b3 < b4 + 1)) ∧
      (¬ (ntoh b0 b1 b2 b3 < 16 ∨ ntoh b0 b1 b2 b3 < b4 + 1) →
        try_read true reads .idle = .ok (.readPayload (ntoh b0 b1 b2 b3) b4, none)) by
    exact ⟨h.1, h.2.1, h.2.2, hconc1, hconc2⟩
  by_cases hc : ntoh b0 b1 b2 b3 < 16 ∨ ntoh b0 b1 b2 b3 < b4 + 1
  · have hcb : (ntoh b0 b1 b2 b3 < 16 || ntoh b0 b1 b2 b3 < b4 + 1) = true := by
      simpa [Bool.or_eq_true, decide_eq_true_eq] using hc
    refine ⟨?_, ?_, fun hn => absurd hc hn⟩
    · simp only [try_read, h5, hcb, if_true]
      exact iff_of_true trivial hc
    · simp only [nb_read_packet, nb_read_packet_body, h5, hcb, if_true]
      exact iff_of_true trivial hc
  · have hcb : (ntoh b0 b1 b2 b3 < 16 || ntoh b0 b1 b2 b3 < b4 + 1) = false := by
      simpa [Bool.or_eq_false_iff, decide_eq_false_iff_not, not_or] using hc
    refine ⟨?_, ?_, fun _ => ?_⟩
    · simp [try_read, h5, hcb, hc]
    · rw [show (nb_read_packet reads none = Except.error IoErrorKind.invalidData) ↔ False from ?_]
      · simpa using hc
      constructor
      · intro h
        rw [nb_read_packet] at h
        rw [h5] at h
        simp [hcb, nb_read_packet_body] at h
        rcases hbody : reads (ntoh b0 b1 b2 b3 - 1) with - | buf <;> simp [hbody] at h
      · exact False.elim
    · simp [try_read, h5, hcb]

/-- C5 witness: the theorem instantiated at header `00 00 00 0F 04`
(`packet_length = 15 < 16`), where both read paths reject. -/
theorem header_validation_witness :
    (try_read true (fun n => if n = 5 then some [0, 0, 0, 15, 4] else none) .idle
        = .error .invalidHeader ↔ (ntoh 0 0 0 15 < 16 ∨ ntoh 0 0 0 15 < 4 + 1)) ∧
    (nb_read_packet (fun n => if n = 5 then some [0, 0, 0, 15, 4] else none) none
        = .error .invalidData ↔ (ntoh 0 0 0 15 < 16 ∨ ntoh 0 0 0 15 < 4 + 1)) ∧
    (¬ (ntoh 0 0 0 15 < 16 ∨ ntoh 0 0 0 15 < 4 + 1) →
      try_read true (fun n => if n = 5 then some [0, 0, 0, 15, 4] else none) .idle
        = .ok (.readPayload (ntoh 0 0 0 15) 4, none)) ∧
    try_read true (fun n => if n = 5 then some [0, 0, 0, 15, 4] else none) .idle
      = .error .invalidHeader ∧
    try_read true (fun n => if n = 5 then some [0, 0, 0, 16, 16] else none) .idle
      = .error .invalidHeader :=
  header_validation 0 0 0 15 4 (fun n => if n = 5 then some [0, 0, 0, 15, 4] else none)
    (by decide) rfl

/-- C4: on header `00 00 00 10 04` followed by 15 body bytes,
`nb_read_packet` delivers the first 11 body bytes (stripping the 4 random
padding bytes) as the claim states, but `AsyncPacketTransport::try_read`
hands the state's `on_read` hook the whole 15-byte body — payload plus
padding — because the computed `payload_len` is never applied to `buf`. -/
theorem try_read_delivers_padding_too :
    nb_read_packet
        (fun n => if n = 5 then some [0, 0, 0, 16, 4]
          else if n = 15 then some [1, 2, 3, 4, 5, 6, 7, 8, 9, 10, 11, 12, 13, 14, 15]
          else none) none
      = .ok (.ready ([1, 2, 3, 4, 5, 6, 7, 8, 9, 10, 11], none)) ∧
    ([1, 2, 3, 4, 5, 6, 7, 8, 9, 10, 11] : List Nat).length = 11 ∧
    try_read true
        (fun n => if n = 5 then some [0, 0, 0, 16, 4]
          else if n = 15 then some [1, 2, 3, 4, 5, 6, 7, 8, 9, 10, 11, 12, 13, 14, 15]
          else none) .idle
      = .ok (.readPayload 16 4, none) ∧
    try_read true
        (fun n => if n = 5 then some [0, 0, 0, 16, 4]
          else if n = 15 then some [1, 2, 3, 4, 5, 6, 7, 8, 9, 10, 11, 12, 13, 14, 15]
          else none) (.readPayload 16 4)
      = .ok (.idle, some [1, 2, 3, 4, 5, 6, 7, 8, 9, 10, 11, 12, 13, 14, 15]) ∧
    ([1, 2, 3, 4, 5, 6, 7, 8, 9, 10, 11, 12, 13, 14, 15] : List Nat)
      ≠ [1, 2, 3, 4, 5, 6, 7, 8, 9, 10, 11] := by
  refine ⟨rfl, rfl, rfl, rfl, by decide⟩

/-! ## AsyncBuf and the buffered non-blocking reader
(`src/async/buf.rs`, `src/async/bufreader.rs`)

The underlying byte source is abstracted per call: `chunk = none` models a
`WouldBlock` from `Read::read`, `some []` a zero-length (EOF) read, and
`some c` a successful read of `c` into the free region.  A well-behaved
`Read` implementation never reports more bytes than the slice it was
handed, so `c` is truncated to the free space. -/

/-- `async::buf::AsyncBuf`: a byte region `buf` with read cursor `pos` and
write cursor `cap`. -/
structure AsyncBuf where
  buf : List Nat
  pos : Nat
  cap : Nat
deriving DecidableEq, Repr

namespace AsyncBuf

/-- `AsyncBuf::data_size`. -/
def data_size (b : AsyncBuf) : Nat := b.cap - b.pos

/-- `AsyncBuf::get_ref`: the readable subregion `buf[pos .. cap]`. -/
def get_ref (b : AsyncBuf) : List Nat := (b.buf.drop b.pos).take (b.cap - b.pos)

/-- `AsyncBuf::capacity`. -/
def capacity (b : AsyncBuf) : Nat := b.buf.length

/-- `AsyncBuf::is_empty`. -/
def is_empty (b : AsyncBuf) : Bool := b.data_size == 0

/-- The cursor invariant `pos ≤ cap ≤ buf.len()` maintained by every
operation. -/
def Inv (b : AsyncBuf) : Prop := b.pos ≤ b.cap ∧ b.cap ≤ b.buf.length

instance (b : AsyncBuf) : Decidable b.Inv := by unfold Inv; infer_instance

/-- `AsyncBuf::fill`. -/
def fill (b : AsyncBuf) (n : Nat) : AsyncBuf :=
  { b with cap := min (b.cap + n) b.buf.length }

/-- `AsyncBuf::consume`. -/
def consume (b : AsyncBuf) (n : Nat) : AsyncBuf :=
  let pos' := b.pos + n
  if pos' ≥ b.cap then { b with pos := 0, cap := 0 } else { b with pos := pos' }

/-- `AsyncBuf::consume_and_get`: `none` models the
`"consuming larger than actual data"` panic. -/
def consume_and_get (b : AsyncBuf) (n : Nat) : Option (List Nat × AsyncBuf) :=
  if b.pos + n > b.cap then none
  else
    let data := (b.buf.drop b.pos).take n
    let pos' := b.pos + n
    some (data,
      if pos' ≥ b.cap then { b with pos := 0, cap := 0 } else { b with pos := pos' })

/-- The `copy_from_slice` of `AsyncBuf::try_reserve`: slide the live region
`buf[pos .. pos + dlen]` to the head of the buffer. -/
def slideList (l : List Nat) (pos dlen : Nat) : List Nat :=
  (l.drop pos).take dlen ++ l.drop dlen

/-- `AsyncBuf::try_reserve`. -/
def try_reserve (b : AsyncBuf) (n : Nat) : Bool × AsyncBuf :=
  if b.cap + n ≤ b.buf.length then (true, b)
  else
    let data_len := b.cap - b.pos
    if data_len > b.pos || data_len + n > b.buf.length then (false, b)
    else (true, { buf := slideList b.buf b.pos data_len, pos := 0, cap := data_len })

/-- The capacity-doubling loop of `AsyncBuf::reserve`.  (With capacity 0 the
Rust loop would never terminate; we return 0 there — all buffers in the
crate are created with positive capacity.) -/
def growCap (c target : Nat) : Nat :=
  if c < target then (if c = 0 then 0 else growCap (c * 2) target) else c
  termination_by target - c
  decreasing_by
    rename_i h hc
    have h1 : 1 ≤ c := Nat.one_le_iff_ne_zero.2 hc
    omega

/-- `AsyncBuf::reserve`: `try_reserve`, then on failure resize (zero-fill)
to the doubled capacity. -/
def reserve (b : AsyncBuf) (n : Nat) : AsyncBuf :=
  match b.try_reserve n with
  | (true, b') => b'
  | (false, b') =>
    { b' with
      buf := b'.buf ++ List.replicate (growCap b'.buf.length (b'.cap + n) - b'.buf.length) 0 }

/-- `AsyncBufReader::fill_buf_no_eof`, success path: the bytes returned by
the inner `read` land at the write cursor and `fill` advances it. -/
def fillFrom (b : AsyncBuf) (c : List Nat) : AsyncBuf :=
  let written := c.take (b.buf.length - b.cap)
  (fill { b with
    buf := b.buf.take b.cap ++ written ++ b.buf.drop (b.cap + written.length) }
    written.length)

end AsyncBuf

/-- `position (iter().position(|&c| c == byte))`: index of the first
occurrence. -/
def position (byte : Nat) : List Nat → Option Nat
  | [] => none
  | b :: bs => if b = byte then some 0 else (position byte bs).map (· + 1)

/-- The outcome of a buffered non-blocking read operation. -/
inductive NbRead
  | ready (out : List Nat) (st : AsyncBuf)
  | notReady (st : AsyncBuf)
  | eofError (st : AsyncBuf)
  | invalidData (st : AsyncBuf)
  | panicked
deriving DecidableEq, Repr

/-- `AsyncBufReader::nb_read_exact`. -/
def nb_read_exact (st : AsyncBuf) (n : Nat) (chunk : Option (List Nat)) : NbRead :=
  if st.data_size ≥ n then
    match st.consume_and_get n with
    | some (out, st') => .ready out st'
    | none => .panicked
  else
    match chunk with
    | none => .notReady (st.reserve n)
    | some [] => .eofError (st.reserve n)
    | some c =>
      if ((st.reserve n).fillFrom c).data_size < n then .notReady ((st.reserve n).fillFrom c)
      else
        match ((st.reserve n).fillFrom c).consume_and_get n with
        | some (out, st') => .ready out st'
        | none => .panicked

/-- `AsyncBufReader::nb_read_until`. -/
def nb_read_until (st : AsyncBuf) (byte limit : Nat) (chunk : Option (List Nat)) : NbRead :=
  match position byte st.get_ref with
  | some idx =>
    match st.consume_and_get idx with
    | some (out, st') => .ready out st'
    | none => .panicked
  | none =>
    match chunk with
    | none => .notReady (st.reserve limit)
    | some [] => .eofError (st.reserve limit)
    | some c =>
      match position byte ((st.reserve limit).fillFrom c).get_ref with
      | some idx =>
        match ((st.reserve limit).fillFrom c).consume_and_get idx with
        | some (out, st') => .ready out st'
        | none => .panicked
      | none =>
        if ((st.reserve limit).fillFrom c).data_size < limit
        then .notReady ((st.reserve limit).fillFrom c)
        else .invalidData ((st.reserve limit).fillFrom c)

namespace AsyncBuf

/-- Under the cursor invariant the readable region has exactly `data_size`
bytes. -/
theorem get_ref_length (b : AsyncBuf) (h : b.Inv) : b.get_ref.length = b.data_size := by
  obtain ⟨h1, h2⟩ := h
  simp [get_ref, data_size]
  omega

/-- `consume_and_get n` (for `n` within the live data) returns the first
`n` readable bytes and leaves exactly the rest readable. -/
theorem consume_and_get_spec (b : AsyncBuf) (n : Nat) (h : b.Inv) (hn : n ≤ b.data_size) :
    ∃ st', b.consume_and_get n = some (b.get_ref.take n, st') ∧
      st'.get_ref = b.get_ref.drop n ∧ st'.Inv := by
  obtain ⟨h1, h2⟩ := h
  unfold data_size at hn
  have hdata : b.get_ref.take n = (b.buf.drop b.pos).take n := by
    unfold get_ref
    rw [List.take_take, Nat.min_eq_left hn]
  by_cases hge : b.pos + n ≥ b.cap
  · refine ⟨{ b with pos := 0, cap := 0 }, ?_, ?_, ⟨Nat.le_refl 0, Nat.zero_le _⟩⟩
    · simp only [consume_and_get]
      rw [if_neg (by omega), if_pos hge, hdata]
    · show (b.buf.drop 0).take (0 - 0) = _
      simp only [Nat.sub_self, List.take_zero]
      symm
      rw [List.drop_eq_nil_iff]
      rw [get_ref_length b ⟨h1, h2⟩]
      unfold data_size
      omega
  · refine ⟨{ b with pos := b.pos + n }, ?_, ?_, ?_⟩
    · simp only [consume_and_get]
      rw [if_neg (by omega), if_neg hge, hdata]
    · show (b.buf.drop (b.pos + n)).take (b.cap - (b.pos + n)) = _
      unfold get_ref
      rw [List.drop_take, ← List.drop_drop, Nat.sub_sub]
    · constructor
      · show b.pos + n ≤ b.cap
        omega
      · exact h2

/-- `reserve` never changes the readable bytes (sliding and zero-fill
resizing preserve `get_ref`) and maintains the invariant. -/
theorem reserve_spec (b : AsyncBuf) (n : Nat) (h : b.Inv) :
    (b.reserve n).get_ref = b.get_ref ∧ (b.reserve n).Inv := by
  obtain ⟨h1, h2⟩ := h
  unfold reserve try_reserve
  by_cases hfit : b.cap + n ≤ b.buf.length
  · rw [if_pos hfit]
    exact ⟨rfl, h1, h2⟩
  · rw [if_neg hfit]
    by_cases hc2 : b.cap - b.pos > b.pos || b.cap - b.pos + n > b.buf.length
    · rw [if_pos hc2]
      constructor
      · unfold get_ref
        simp only []
        rw [List.drop_append_eq_append_drop, List.take_append_eq_append_take]
        rw [List.length_drop]
        have hz : b.cap - b.pos - (b.buf.length - b.pos) = 0 := by omega
        rw [hz, List.take_zero, List.append_nil]
      · refine ⟨h1, by simp; omega⟩
    · rw [if_neg hc2]
      simp only [Bool.or_eq_true, not_or, decide_eq_true_eq] at hc2
      obtain ⟨hc2a, hc2b⟩ := hc2
      simp only [gt_iff_lt, not_lt] at hc2a hc2b
      constructor
      · show (((b.buf.drop b.pos).take (b.cap - b.pos) ++ b.buf.drop (b.cap - b.pos)).drop 0).take
            (b.cap - b.pos - 0) = _
        rw [List.drop_zero, Nat.sub_zero]
        rw [List.take_append_eq_append_take]
        rw [List.length_take, List.length_drop]
        rw [List.take_take]
        have hz : b.cap - b.pos - ((b.cap - b.pos) ⊓ (b.buf.length - b.pos)) = 0 := by
          omega
        rw [Nat.min_self, hz, List.take_zero, List.append_nil]
        rfl
      · constructor
        · show 0 ≤ b.cap - b.pos
          omega
        · show b.cap - b.pos ≤ ((b.buf.drop b.pos).take (b.cap - b.pos)
            ++ b.buf.drop (b.cap - b.pos)).length
          simp
          omega

/-- A successful inner read of `c` appends `c` to the readable region. -/
theorem fillFrom_spec (b : AsyncBuf) (c : List Nat) (h : b.Inv)
    (hc : c.length ≤ b.buf.length - b.cap) :
    (b.fillFrom c).get_ref = b.get_ref ++ c ∧ (b.fillFrom c).Inv ∧
      (b.fillFrom c).data_size = b.data_size + c.length := by
  obtain ⟨h1, h2⟩ := h
  have hwr : c.take (b.buf.length - b.cap) = c := List.take_of_length_le hc
  unfold fillFrom fill
  simp only [hwr]
  have hlen : (b.buf.take b.cap ++ c ++ b.buf.drop (b.cap + c.length)).length
      = b.buf.length := by
    simp
    omega
  have hcap : min (b.cap + c.length) (b.buf.take b.cap ++ c
      ++ b.buf.drop (b.cap + c.length)).length = b.cap + c.length := by
    rw [hlen]
    omega
  refine ⟨?_, ⟨?_, ?_⟩, ?_⟩
  · unfold get_ref
    simp only [hcap]
    rw [List.append_assoc, List.drop_append_eq_append_drop]
    have hp0 : b.pos - (b.buf.take b.cap).length = 0 := by simp; omega
    rw [hp0, List.drop_zero]
    rw [List.take_append_eq_append_take]
    have hl1 : ((b.buf.take b.cap).drop b.pos).length = b.cap - b.pos := by simp; omega
    rw [hl1]
    have hcnt2 : b.cap + c.length - b.pos - (b.cap - b.pos) = c.length := by omega
    rw [hcnt2]
    rw [List.take_append_eq_append_take]
    rw [List.take_length, Nat.sub_self, List.take_zero, List.append_nil]
    congr 1
    rw [List.drop_take]
    rw [List.take_take]
    congr 1
    omega
  · show b.pos ≤ min (b.cap + c.length) _
    rw [hcap]
    omega
  · show min (b.cap + c.length) _ ≤ (b.buf.take b.cap ++ c ++ b.buf.drop (b.cap + c.length)).length
    rw [hcap, hlen]
    omega
  · show min (b.cap + c.length) _ - b.pos = (b.cap - b.pos) + c.length
    rw [hcap]
    omega

end AsyncBuf

/-- `position` finds the first occurrence: nothing before index `idx`
equals `byte`, and the element at `idx` is `byte`. -/
theorem position_spec (byte : Nat) (l : List Nat) (idx : Nat) (h : position byte l = some idx) :
    byte ∉ l.take idx ∧ (l.drop idx).head? = some byte := by
  induction l generalizing idx with
  | nil => exact absurd h (by simp [position])
  | cons b bs ih =>
    unfold position at h
    by_cases hb : b = byte
    · rw [if_pos hb] at h
      obtain rfl : idx = 0 := (Option.some_inj.1 h).symm
      subst hb
      simp
    · rw [if_neg hb] at h
      obtain ⟨j, hj, rfl⟩ : ∃ j, position byte bs = some j ∧ idx = j + 1 := by
        rcases hp : position byte bs with - | j
        · rw [hp] at h; exact absurd h (by simp)
        · rw [hp] at h
          exact ⟨j, rfl, by simpa using h.symm⟩
      obtain ⟨ih1, ih2⟩ := ih j hj
      refine ⟨?_, by simpa using ih2⟩
      simp only [List.take_succ_cons, List.mem_cons, not_or]
      exact ⟨fun hc => hb hc.symm, ih1⟩

/-- A list whose head is `byte` starts with `[byte]`. -/
theorem take_one_of_head (l : List Nat) (byte : Nat) (h : l.head? = some byte) :
    l.take 1 = [byte] := by
  cases l with
  | nil => simp at h
  | cons a as => simpa using (Option.some_inj.1 h)

/-- After `nb_read_until` succeeds, the very next `nb_read_exact 1` —
whatever the inner source does — returns the delimiter byte. -/
theorem ready_after_spec (st' : AsyncBuf) (byte : Nat) (hinv : st'.Inv)
    (hhead : st'.get_ref.head? = some byte) :
    ∀ chunk2, ∃ st2, nb_read_exact st' 1 chunk2 = .ready [byte] st2 := by
  intro chunk2
  have hlen : 1 ≤ st'.data_size := by
    rw [← AsyncBuf.get_ref_length st' hinv]
    cases hg : st'.get_ref with
    | nil => rw [hg] at hhead; simp at hhead
    | cons a as => simp [hg]
  obtain ⟨st2, hcg, -, -⟩ := AsyncBuf.consume_and_get_spec st' 1 hinv hlen
  refine ⟨st2, ?_⟩
  unfold nb_read_exact
  rw [if_pos hlen, hcg, take_one_of_head _ _ hhead]

/-- The `consume_and_get` arm of `nb_read_until`, when it yields `ready`,
delivers the prefix before the delimiter and consumes exactly it. -/
theorem consume_ready (st : AsyncBuf) (byte idx : Nat) (hinv : st.Inv)
    (hpos : position byte st.get_ref = some idx) (out : List Nat) (st' : AsyncBuf)
    (h : (match st.consume_and_get idx with
          | some (o, s) => NbRead.ready o s
          | none => NbRead.panicked) = .ready out st') :
    out = st.get_ref.take idx ∧ st'.get_ref = st.get_ref.drop idx ∧ st'.Inv := by
  obtain ⟨hnotin, hhead⟩ := position_spec byte _ idx hpos
  have hidx : idx ≤ st.data_size := by
    rw [← AsyncBuf.get_ref_length st hinv]
    by_contra hcon
    rw [List.drop_eq_nil_iff.2 (by omega)] at hhead
    simp at hhead
  obtain ⟨stc, hcg, href, hci⟩ := AsyncBuf.consume_and_get_spec st idx hinv hidx
  rw [hcg] at h
  obtain ⟨ho, hs⟩ : out = st.get_ref.take idx ∧ st' = stc := by
    cases h
    exact ⟨rfl, rfl⟩
  subst ho hs
  exact ⟨rfl, href, hci⟩

/-- C10: every successful `nb_read_until(byte, limit)` returns exactly the
buffered bytes strictly preceding the first occurrence of `byte` and
consumes exactly those bytes: the buffered bytes (after the optional single
inner read) are the returned slice followed by the unconsumed rest, the
delimiter itself stays in the buffer at the front, and it is the first byte
produced by the next read operation. -/
theorem nb_read_until_spec (st : AsyncBuf) (byte limit : Nat) (chunk : Option (List Nat))
    (hinv : st.Inv)
    (hfit : ∀ c, chunk = some c →
      c.length ≤ (st.reserve limit).buf.length - (st.reserve limit).cap)
    (out : List Nat) (st' : AsyncBuf)
    (h : nb_read_until st byte limit chunk = .ready out st') :
    byte ∉ out ∧ st'.get_ref.head? = some byte ∧
      (out ++ st'.get_ref = st.get_ref ∨
        ∃ c, chunk = some c ∧ out ++ st'.get_ref = st.get_ref ++ c) ∧
      ∀ chunk2, ∃ st2, nb_read_exact st' 1 chunk2 = .ready [byte] st2 := by
  unfold nb_read_until at h
  rcases hpos : position byte st.get_ref with - | idx
  · rw [hpos] at h
    rcases hch : chunk with - | c
    · rw [hch] at h; exact NbRead.noConfusion h
    rcases c with - | ⟨c0, cs⟩
    · rw [hch] at h; exact NbRead.noConfusion h
    rw [hch] at h
    obtain ⟨hres, hresinv⟩ := AsyncBuf.reserve_spec st limit hinv
    obtain ⟨hfill, hfillinv, -⟩ := AsyncBuf.fillFrom_spec (st.reserve limit) (c0 :: cs)
      hresinv (hfit _ hch)
    rw [hres] at hfill
    have h2 : (match position byte ((st.reserve limit).fillFrom (c0 :: cs)).get_ref with
        | some idx =>
          match ((st.reserve limit).fillFrom (c0 :: cs)).consume_and_get idx with
          | some (o, s) => NbRead.ready o s
          | none => NbRead.panicked
        | none =>
          if ((st.reserve limit).fillFrom (c0 :: cs)).data_size < limit
          then NbRead.notReady ((st.reserve limit).fillFrom (c0 :: cs))
          else NbRead.invalidData ((st.reserve limit).fillFrom (c0 :: cs)))
        = NbRead.ready out st' := h
    rcases hpos2 : position byte ((st.reserve limit).fillFrom (c0 :: cs)).get_ref
        with - | idx2
    · rw [hpos2] at h2
      replace h2 : (if ((st.reserve limit).fillFrom (c0 :: cs)).data_size < limit
          then NbRead.notReady ((st.reserve limit).fillFrom (c0 :: cs))
          else NbRead.invalidData ((st.reserve limit).fillFrom (c0 :: cs)))
          = NbRead.ready out st' := h2
      split at h2 <;> exact NbRead.noConfusion h2
    · rw [hpos2] at h2
      obtain ⟨ho, hs, hsinv⟩ := consume_ready _ byte idx2 hfillinv hpos2 out st' h2
      obtain ⟨hnotin, hhead⟩ := position_spec byte _ idx2 hpos2
      rw [← ho] at hnotin
      rw [← hs] at hhead
      refine ⟨hnotin, hhead, Or.inr ⟨c0 :: cs, rfl, ?_⟩, ready_after_spec st' byte hsinv hhead⟩
      rw [ho, hs, List.take_append_drop, hfill]
  · rw [hpos] at h
    obtain ⟨ho, hs, hsinv⟩ := consume_ready st byte idx hinv hpos out st' h
    obtain ⟨hnotin, hhead⟩ := position_spec byte _ idx hpos
    rw [← ho] at hnotin
    rw [← hs] at hhead
    refine ⟨hnotin, hhead, Or.inl ?_, ready_after_spec st' byte hsinv hhead⟩
    rw [ho, hs, List.take_append_drop]

/-- C10 witness: buffer `[65, 10, 66, 0]` with `pos = 0`, `cap = 3` and
delimiter `10`: the call returns `[65]`, consumes one byte, and the
delimiter `10` is the next byte read. -/
theorem nb_read_until_spec_witness :
    10 ∉ [65] ∧ (AsyncBuf.mk [65, 10, 66, 0] 1 3).get_ref.head? = some 10 ∧
      ([65] ++ (AsyncBuf.mk [65, 10, 66, 0] 1 3).get_ref
          = (AsyncBuf.mk [65, 10, 66, 0] 0 3).get_ref ∨
        ∃ c, (none : Option (List Nat)) = some c ∧
          [65] ++ (AsyncBuf.mk [65, 10, 66, 0] 1 3).get_ref
            = (AsyncBuf.mk [65, 10, 66, 0] 0 3).get_ref ++ c) ∧
      ∀ chunk2, ∃ st2,
        nb_read_exact (AsyncBuf.mk [65, 10, 66, 0] 1 3) 1 chunk2 = .ready [10] st2 :=
  nb_read_until_spec ⟨[65, 10, 66, 0], 0, 3⟩ 10 4 none (by decide)
    (by intro c hc; cases hc) [65] ⟨[65, 10, 66, 0], 1, 3⟩ rfl

/-! ## Handshake state machine (`src/handshake.rs`)

The crate root defining the SSH message numbers and the
`serialize_msg`/`deserialize_msg` helpers is not present in the source
tree (only their uses are), so those are modelled from the spec.  The
`ring` primitives (ephemeral key generation, X25519 agreement, SHA-256
finalisation, RSA verification) are abstract parameters gathered in
`Crypto`; the hash context is the byte stream fed to it. -/

/-- Modelled from the spec: `SSH_MSG_KEXINIT = 20` (spec §4.6 S1), a crate
root constant missing from the source tree. -/
def SSH_MSG_KEXINIT : Nat := 20

/-- Modelled from the spec: `SSH_MSG_NEWKEYS = 21` (spec §4.6 S3). -/
def SSH_MSG_NEWKEYS : Nat := 21

/-- Modelled from the spec: `SSH_MSG_KEXDH_INIT = 30` (spec §4.6 S2). -/
def SSH_MSG_KEXDH_INIT : Nat := 30

/-- Modelled from the spec: `SSH_MSG_KEXDH_REPLY = 31` (spec §4.6 S2). -/
def SSH_MSG_KEXDH_REPLY : Nat := 31

/-- Modelled from the spec: `packet::serialize_msg(msg, v)` — missing from
the source tree — prepends the one-byte message number to the serialized
body (`deserialize_msg` reads the first byte as the message number and the
spec describes the KEXDH_INIT payload as byte `30` followed by the body). -/
def serialize_msg (msg : Nat) (body : Except EncoderError (List Nat)) :
    Except EncoderError (List Nat) :=
  body.map (msg :: ·)

/-- `handshake::into_mpint`. -/
def into_mpint (buf : List Nat) : List Nat :=
  match buf with
  | [] => []
  | b :: _ => if b ≤ 0x7f then buf else 0 :: buf

/-- `handshake::from_mpint`. -/
def from_mpint (data : List Nat) : List Nat :=
  match data with
  | 0 :: rest => rest
  | _ => data

/-- `de_name_list` at the raw-name level, as used inside
`AlgorithmNegotiation`: the source's per-field name enums
(`KexAlgorithm`, …) convert names with total `From<&str>` instances
(`Unknown` catch-all), so field decoding succeeds exactly when this does
and the names' bytes are preserved. -/
def de_name_list_raw : DecM (List (List Nat)) := fun l => do
  let (s, rest) ← de_str l
  .ok (splitOnByte 44 s, rest)

/-- `packet::types::AlgorithmNegotiation`, with each name list kept as the
raw name bytes. -/
structure AlgorithmNegotiation where
  kex_algorithms : List (List Nat)
  server_host_key_algorithms : List (List Nat)
  encryption_algorithms_client_to_server : List (List Nat)
  encryption_algorithms_server_to_client : List (List Nat)
  mac_algorithms_client_to_server : List (List Nat)
  mac_algorithms_server_to_client : List (List Nat)
  compression_algorithms_client_to_server : List (List Nat)
  compression_algorithms_server_to_client : List (List Nat)
  languages_client_to_server : List (List Nat)
  languages_server_to_client : List (List Nat)
  first_kex_packet_follows : Bool
  reserved : Nat
deriving DecidableEq, Repr

/-- `deserialize::<AlgorithmNegotiation>`: the twelve fields in declared
order. -/
def decodeAlgorithmNegotiation : DecM AlgorithmNegotiation := fun l => do
  let (f1, l) ← de_name_list_raw l
  let (f2, l) ← de_name_list_raw l
  let (f3, l) ← de_name_list_raw l
  let (f4, l) ← de_name_list_raw l
  let (f5, l) ← de_name_list_raw l
  let (f6, l) ← de_name_list_raw l
  let (f7, l) ← de_name_list_raw l
  let (f8, l) ← de_name_list_raw l
  let (f9, l) ← de_name_list_raw l
  let (f10, l) ← de_name_list_raw l
  let (fb, l) ← de_bool l
  let (fr, l) ← parse_u32 l
  .ok (⟨f1, f2, f3, f4, f5, f6, f7, f8, f9, f10, fb, fr⟩, l)

/-- `packet::types::Signature` (`ssh-rsa`, raw signature bytes). -/
inductive Signature
  | SSH_RSA (signature : List Nat)
deriving DecidableEq, Repr

/-- `packet::types::KexReply`. -/
structure KexReply where
  server_key : ServerKey
  f : List Nat
  signature : Signature
deriving DecidableEq, Repr

/-- `deserialize::<ServerKey>`: a length-prefixed tag string, then the
`ssh-rsa` fields `e`, `n`; an unknown tag is a decode error (`ServerKey`
has no catch-all variant). -/
def decodeServerKey : DecM ServerKey := fun l => do
  let (tag, l) ← de_str l
  if tag = sshRsaBytes then do
    let (e, l) ← de_bytes l
    let (n, l) ← de_bytes l
    .ok (ServerKey.SSH_RSA e n, l)
  else .error .serde

/-- `deserialize::<Signature>`. -/
def decodeSignature : DecM Signature := fun l => do
  let (tag, l) ← de_str l
  if tag = sshRsaBytes then do
    let (s, l) ← de_bytes l
    .ok (Signature.SSH_RSA s, l)
  else .error .serde

/-- `packet::decoder::de_inner`: read one SSH byte string and decode the
inner value from the blob (trailing blob bytes are not checked). -/
def de_inner {α : Type} (inner : DecM α) : DecM α := fun l => do
  let (blob, rest) ← parse_bytes l
  match inner blob with
  | .ok (v, _) => .ok (v, rest)
  | .error _ => .error .serde

/-- `deserialize::<KexReply>`. -/
def decodeKexReply : DecM KexReply := fun l => do
  let (sk, l) ← de_inner decodeServerKey l
  let (f, l) ← de_bytes l
  let (sg, l) ← de_inner decodeSignature l
  .ok (⟨sk, f, sg⟩, l)

/-- `serialize::<ServerKey>`: the tag string then the two byte strings. -/
def serializeServerKey : ServerKey → Except EncoderError (List Nat)
  | .SSH_RSA e n => do
    let se ← ser_bytes e
    let sn ← ser_bytes n
    .ok (ser_u32 sshRsaBytes.length ++ sshRsaBytes ++ se ++ sn)

/-- `handshake::NegotiatedAlgorithm`, with each chosen algorithm kept as its
name's bytes (`languages` are `Option`s). -/
structure NegotiatedAlgorithm where
  kex_algorithms : List Nat
  server_host_key_algorithms : List Nat
  encryption_algorithms_client_to_server : List Nat
  encryption_algorithms_server_to_client : List Nat
  mac_algorithms_client_to_server : List Nat
  mac_algorithms_server_to_client : List Nat
  compression_algorithms_client_to_server : List Nat
  compression_algorithms_server_to_client : List Nat
  languages_client_to_server : Option (List Nat)
  languages_server_to_client : Option (List Nat)
deriving DecidableEq, Repr

/-- The hard-coded selection in `AlgorithmExchangeState::on_read`
(`CURVE25519_SHA256`, `SSH_RSA`, `AES256_GCM`, `HMAC_SHA2_256`, `NONE`;
the source's `XXX` comment marks the missing preference-intersection
rule). -/
def hardcodedNegotiation : NegotiatedAlgorithm where
  kex_algorithms :=
    [99, 117, 114, 118, 101, 50, 53, 53, 49, 57, 45, 115, 104, 97, 50, 53,
     54, 64, 108, 105, 98, 115, 115, 104, 46, 111, 114, 103]
  server_host_key_algorithms := sshRsaBytes
  encryption_algorithms_client_to_server :=
    [97, 101, 115, 50, 53, 54, 45, 103, 99, 109, 64, 111, 112, 101, 110,
     115, 115, 104, 46, 99, 111, 109]
  encryption_algorithms_server_to_client :=
    [97, 101, 115, 50, 53, 54, 45, 103, 99, 109, 64, 111, 112, 101, 110,
     115, 115, 104, 46, 99, 111, 109]
  mac_algorithms_client_to_server :=
    [104, 109, 97, 99, 45, 115, 104, 97, 50, 45, 50, 53, 54]
  mac_algorithms_server_to_client :=
    [104, 109, 97, 99, 45, 115, 104, 97, 50, 45, 50, 53, 54]
  compression_algorithms_client_to_server := [110, 111, 110, 101]
  compression_algorithms_server_to_client := [110, 111, 110, 101]
  languages_client_to_server := none
  languages_server_to_client := none

/-- `handshake::SecureContext`. -/
structure SecureContext where
  neg_algorithm : NegotiatedAlgorithm
  session_id : List Nat
deriving DecidableEq, Repr

/-- `transport::PacketWriteRequest`. -/
structure PacketWriteRequest where
  payload : List Nat
  flush : Bool
deriving DecidableEq, Repr

/-- The external cryptographic services consumed by the handshake:
`keygen` is `EphemeralPrivateKey::generate` plus `compute_public_key`
(the private key abstracted as a `Nat` handle), `agree` is
`agreement::agree_ephemeral` (raw shared secret), `hashFinish` is
`digest::Context::finish` on the byte stream fed so far, and `verify` is
`signature::primitive::verify_rsa (n, e) H sig`. -/
structure Crypto where
  keygen : Option (Nat × List Nat)
  agree : Nat → List Nat → Option (List Nat)
  hashFinish : List Nat → List Nat
  verify : List Nat → List Nat → List Nat → List Nat → Bool

/-- `handshake::AlgorithmExchangeState` (the hash `Context` in `res` is its
byte stream). -/
structure AlgorithmExchangeState where
  v_c : List Nat
  v_s : List Nat
  i_c : List Nat
  written : Bool
  res : Option (NegotiatedAlgorithm × List Nat)
deriving DecidableEq, Repr

/-- `handshake::KeyExchangeState`. -/
structure KeyExchangeState where
  neg : NegotiatedAlgorithm
  hash_ctx : List Nat
  priv_key : Nat
  e : List Nat
  written : Bool
  res : Option (List Nat)
deriving DecidableEq, Repr

/-- `handshake::Agreed`. -/
structure Agreed where
  ctx : Option SecureContext
  new_key_sent : Bool
deriving DecidableEq, Repr

/-- `AlgorithmExchangeState::on_read`: require `SSH_MSG_KEXINIT`, decode
the negotiation from offset 17 (tag byte + 16-byte cookie; a shorter
message makes the `&msg[17..]` slice panic), then store the hard-coded
negotiation and the transcript context seeded with
`V_C, V_S, I_C, I_S = msg`, each length-prefixed via `digest_bytes`. -/
def AlgorithmExchangeState.on_read (st : AlgorithmExchangeState) (msg : List Nat) :
    Except HandshakeError AlgorithmExchangeState :=
  if msg.length = 0 || !(msg.head? == some SSH_MSG_KEXINIT) then
    .error .invalidAlgorithmNegotiation
  else if msg.length < 17 then .error .panicked
  else
    match decodeAlgorithmNegotiation (msg.drop 17) with
    | .error _ => .error .invalidAlgorithmNegotiation
    | .ok _ =>
      .ok { st with res := some (hardcodedNegotiation,
        digest_bytes_stream st.v_c ++ digest_bytes_stream st.v_s ++
          digest_bytes_stream st.i_c ++ digest_bytes_stream msg) }

/-- `AlgorithmExchangeState::wants_write`. -/
def AlgorithmExchangeState.wants_write (st : AlgorithmExchangeState) :
    Option PacketWriteRequest :=
  if st.written then none else some ⟨st.i_c, true⟩

/-- `AlgorithmExchangeState::on_flush`. -/
def AlgorithmExchangeState.on_flush (st : AlgorithmExchangeState) :
    AlgorithmExchangeState :=
  { st with written := true }

/-- `AlgorithmExchangeState::wants_read`. -/
def AlgorithmExchangeState.wants_read (st : AlgorithmExchangeState) : Bool :=
  st.res.isNone

/-- `<AlgorithmExchangeState as Future>::poll`: once the negotiation is
recorded, generate the ephemeral keypair and move to `KeyExchangeState`. -/
def AlgorithmExchangeState.poll (crypto : Crypto) (st : AlgorithmExchangeState) :
    Except HandshakeError (Async KeyExchangeState) :=
  match st.res with
  | some (neg, ctx) =>
    match crypto.keygen with
    | some (priv, pub) =>
      .ok (.ready ⟨neg, ctx, priv, pub, false, none⟩)
    | none => .error .kexFailed
  | none => .ok .notReady

/-- `KeyExchangeState::on_read`: require `SSH_MSG_KEXDH_REPLY` (the source
reports the wrong-message case as `InvalidAlgorithmNegotiation`), decode
the reply from offset 1, feed `K_S`, `e`, `f`, `K` to the hash context
(raw, as the source does), finish the hash, and verify the server's RSA
signature over it; a failed verification is `ServerKeyNotVerified`. -/
def KeyExchangeState.on_read (crypto : Crypto) (st : KeyExchangeState)
    (msg : List Nat) : Except HandshakeError KeyExchangeState :=
  if msg.length = 0 || !(msg.head? == some SSH_MSG_KEXDH_REPLY) then
    .error .invalidAlgorithmNegotiation
  else
    match decodeKexReply (msg.drop 1) with
    | .error _ => .error .invalidAlgorithmNegotiation
    | .ok (reply, _) =>
      match hsk : reply.server_key with
      | ServerKey.SSH_RSA e' n' =>
        match serializeServerKey reply.server_key with
        | .error _ => .error .panicked
        | .ok k_s =>
          match crypto.agree st.priv_key reply.f with
          | none => .error .kexFailed
          | some shared =>
            let k := into_mpint shared
            let stream := st.hash_ctx ++ k_s ++ st.e ++ reply.f ++ k
            let hash := crypto.hashFinish stream
            match reply.signature with
            | Signature.SSH_RSA sgn =>
              if crypto.verify (from_mpint n') (from_mpint e') hash sgn then
                .ok { st with hash_ctx := stream, res := some hash }
              else
                .error .serverKeyNotVerified

/-- `KeyExchangeState::wants_write`: the source serializes the KEXDH_INIT
payload with `serialize_msg(SSH_MSG_KEXINIT, &KexInit { e })` — message
number 20, not 30.  (`.unwrap()` can only panic past `u32::MAX`, which the
32/65-byte public values never reach.) -/
def KeyExchangeState.wants_write (st : KeyExchangeState) : Option PacketWriteRequest :=
  if st.written then none
  else some ⟨SSH_MSG_KEXINIT :: ser_u32 st.e.length ++ st.e, true⟩

/-- `KeyExchangeState::on_flush`. -/
def KeyExchangeState.on_flush (st : KeyExchangeState) : KeyExchangeState :=
  { st with written := true }

/-- `KeyExchangeState::wants_read`. -/
def KeyExchangeState.wants_read (st : KeyExchangeState) : Bool :=
  st.res.isNone

/-- `<KeyExchangeState as Future>::poll`: only after the KEXDH_INIT packet
was flushed and the reply verified does it build the `SecureContext` and
move to `Agreed` (with `new_key_sent := false`). -/
def KeyExchangeState.poll (st : KeyExchangeState) :
    Except HandshakeError (Async Agreed) :=
  if !st.written then .ok .notReady
  else
    match st.res with
    | some session_id => .ok (.ready ⟨some ⟨st.neg, session_id⟩, false⟩)
    | none => .ok .notReady

/-- `<Agreed as AsyncPacketState>::wants_write`: unconditionally request a
single-byte `SSH_MSG_NEWKEYS` packet with flush — there is no
`already_sent` gate on `new_key_sent`. -/
def Agreed.wants_write (_ : Agreed) : Option PacketWriteRequest :=
  some ⟨[SSH_MSG_NEWKEYS], true⟩

/-- `<Agreed as AsyncPacketState>::on_flush`. -/
def Agreed.on_flush (st : Agreed) : Agreed :=
  { st with new_key_sent := true }

/-- `<Agreed as Future>::poll`: once NEWKEYS is flushed, hand out the
`SecureContext` (`panic!` on a second poll). -/
def Agreed.poll (st : Agreed) : Except HandshakeError (Async (SecureContext × Agreed)) :=
  if st.new_key_sent then
    match st.ctx with
    | some c => .ok (.ready (c, { st with ctx := none }))
    | none => .error .panicked
  else .ok .notReady

/-- `handshake::ClientKeyExchange`. -/
inductive ClientKeyExchange
  | algorithmExchange (st : AlgorithmExchangeState)
  | keyExchange (st : KeyExchangeState)
  | agreed (st : Agreed)
deriving DecidableEq, Repr

/-- The hook invocations the transport driver can make on the state (the
driver calls them in its write/read/progress passes; quantifying over
arbitrary sequences over-approximates every driver schedule). -/
inductive HEvent
  | onRead (msg : List Nat)
  | onFlush
  | poll
deriving DecidableEq, Repr

/-- History flags accumulated while running the machine: `verified` is set
exactly by the successful signature-verification branch of
`KeyExchangeState::on_read`, and `newkeysFlushed` exactly by
`Agreed::on_flush` (the flush acknowledgment of the NEWKEYS packet). -/
structure Ghost where
  verified : Bool
  newkeysFlushed : Bool
deriving DecidableEq, Repr

/-- One hook invocation on `ClientKeyExchange`, mirroring its
`AsyncPacketState` and `Future` impls: `on_read` dispatches to the
current substate (`unreachable!` in `Agreed`), `on_flush` likewise, and
`poll` advances `AlgorithmExchange → KeyExchange → Agreed`, surfacing the
`SecureContext` only from `Agreed::poll`.  The returned `Ghost` flags
record which security-relevant transition this step performed. -/
def step (crypto : Crypto) (s : ClientKeyExchange) :
    HEvent → Except HandshakeError (ClientKeyExchange × Option SecureContext × Ghost)
  | .onRead msg =>
    match s with
    | .algorithmExchange st =>
      (st.on_read msg).map fun st' => (.algorithmExchange st', none, ⟨false, false⟩)
    | .keyExchange st =>
      (st.on_read crypto msg).map fun st' => (.keyExchange st', none, ⟨true, false⟩)
    | .agreed _ => .error .panicked
  | .onFlush =>
    match s with
    | .algorithmExchange st => .ok (.algorithmExchange st.on_flush, none, ⟨false, false⟩)
    | .keyExchange st => .ok (.keyExchange st.on_flush, none, ⟨false, false⟩)
    | .agreed st => .ok (.agreed st.on_flush, none, ⟨false, true⟩)
  | .poll =>
    match s with
    | .algorithmExchange st =>
      (st.poll crypto).map fun r =>
        match r with
        | .ready kex => (.keyExchange kex, none, ⟨false, false⟩)
        | .notReady => (.algorithmExchange st, none, ⟨false, false⟩)
    | .keyExchange st =>
      st.poll.map fun r =>
        match r with
        | .ready ag => (.agreed ag, none, ⟨false, false⟩)
        | .notReady => (.keyExchange st, none, ⟨false, false⟩)
    | .agreed st =>
      st.poll.map fun r =>
        match r with
        | .ready (ctx, st') => (.agreed st', some ctx, ⟨false, false⟩)
        | .notReady => (.agreed st, none, ⟨false, false⟩)

/-- Run the machine over a sequence of hook invocations, stopping at the
first surfaced `SecureContext` or error, and accumulating the ghost
flags. -/
def runFrom (crypto : Crypto) (s : ClientKeyExchange) (g : Ghost) :
    List HEvent → Except HandshakeError (ClientKeyExchange × Ghost × Option SecureContext)
  | [] => .ok (s, g, none)
  | e :: es =>
    match step crypto s e with
    | .error err => .error err
    | .ok (s', out, g') =>
      let g2 : Ghost := ⟨g.verified || g'.verified, g.newkeysFlushed || g'.newkeysFlushed⟩
      match out with
      | some ctx => .ok (s', g2, some ctx)
      | none => runFrom crypto s' g2 es

/-- The per-state strengthening of the C6 invariant: a recorded
key-exchange result implies a past successful verification, and the
`Agreed` state implies it too, with `new_key_sent` additionally implying a
past NEWKEYS flush. -/
def StateInv : ClientKeyExchange → Ghost → Prop
  | .algorithmExchange _, _ => True
  | .keyExchange k, g => k.res.isSome → g.verified = true
  | .agreed a, g => g.verified = true ∧ (a.new_key_sent = true → g.newkeysFlushed = true)

/-- Each accepted `step` preserves the per-state invariant under ghost-flag
accumulation, and a surfaced `SecureContext` forces both flags. -/
theorem step_inv (crypto : Crypto) (s : ClientKeyExchange) (g : Ghost) (e : HEvent)
    (hs : StateInv s g) (s' : ClientKeyExchange) (out : Option SecureContext) (g' : Ghost)
    (h : step crypto s e = .ok (s', out, g')) :
    StateInv s' ⟨g.verified || g'.verified, g.newkeysFlushed || g'.newkeysFlushed⟩ ∧
      (∀ ctx, out = some ctx →
        (g.verified || g'.verified) = true ∧
        (g.newkeysFlushed || g'.newkeysFlushed) = true) := by
  cases e with
  | onRead msg =>
    cases s with
    | algorithmExchange st =>
      rcases hr : st.on_read msg with err | st2
      · rw [step, hr] at h; exact absurd h (by simp [Except.map])
      · rw [step, hr] at h
        simp only [Except.map] at h
        obtain ⟨hs', hout, hg⟩ : ClientKeyExchange.algorithmExchange st2 = s' ∧
            (none : Option SecureContext) = out ∧ (⟨false, false⟩ : Ghost) = g' := by
          cases h; exact ⟨rfl, rfl, rfl⟩
        subst hs' hout hg
        exact ⟨trivial, by intro ctx hc; cases hc⟩
    | keyExchange st =>
      rcases hr : st.on_read crypto msg with err | st2
      · rw [step, hr] at h; exact absurd h (by simp [Except.map])
      · rw [step, hr] at h
        simp only [Except.map] at h
        obtain ⟨hs', hout, hg⟩ : ClientKeyExchange.keyExchange st2 = s' ∧
            (none : Option SecureContext) = out ∧ (⟨true, false⟩ : Ghost) = g' := by
          cases h; exact ⟨rfl, rfl, rfl⟩
        subst hs' hout hg
        refine ⟨fun _ => by simp, by intro ctx hc; cases hc⟩
    | agreed st =>
      exact absurd h (by simp [step])
  | onFlush =>
    cases s with
    | algorithmExchange st =>
      rw [step] at h
      obtain ⟨hs', hout, hg⟩ : ClientKeyExchange.algorithmExchange st.on_flush = s' ∧
          (none : Option SecureContext) = out ∧ (⟨false, false⟩ : Ghost) = g' := by
        cases h; exact ⟨rfl, rfl, rfl⟩
      subst hs' hout hg
      exact ⟨trivial, by intro ctx hc; cases hc⟩
    | keyExchange st =>
      rw [step] at h
      obtain ⟨hs', hout, hg⟩ : ClientKeyExchange.keyExchange st.on_flush = s' ∧
          (none : Option SecureContext) = out ∧ (⟨false, false⟩ : Ghost) = g' := by
        cases h; exact ⟨rfl, rfl, rfl⟩
      subst hs' hout hg
      refine ⟨fun hres => ?_, by intro ctx hc; cases hc⟩
      simp only [Bool.or_false]
      exact hs hres
    | agreed st =>
      rw [step] at h
      obtain ⟨hs', hout, hg⟩ : ClientKeyExchange.agreed st.on_flush = s' ∧
          (none : Option SecureContext) = out ∧ (⟨false, true⟩ : Ghost) = g' := by
        cases h; exact ⟨rfl, rfl, rfl⟩
      subst hs' hout hg
      refine ⟨⟨by simp [hs.1], fun _ => by simp⟩, by intro ctx hc; cases hc⟩
  | poll =>
    cases s with
    | algorithmExchange st =>
      rcases hr : st.poll crypto with err | r
      · rw [step, hr] at h; exact absurd h (by simp [Except.map])
      · rw [step, hr] at h
        simp only [Except.map] at h
        cases r with
        | ready kex =>
          obtain ⟨hs', hout, hg⟩ : ClientKeyExchange.keyExchange kex = s' ∧
              (none : Option SecureContext) = out ∧ (⟨false, false⟩ : Ghost) = g' := by
            cases h; exact ⟨rfl, rfl, rfl⟩
          subst hs' hout hg
          refine ⟨fun hres => ?_, by intro ctx hc; cases hc⟩
          exfalso
          unfold AlgorithmExchangeState.poll at hr
          rcases hres2 : st.res with - | ⟨neg, ctx⟩
          · rw [hres2] at hr; cases hr
          · rw [hres2] at hr
            rcases hkg : crypto.keygen with - | ⟨priv, pub⟩
            · rw [hkg] at hr; cases hr
            · rw [hkg] at hr
              obtain hkex : kex = ⟨neg, ctx, priv, pub, false, none⟩ := by
                cases hr; rfl
              rw [hkex] at hres
              simp at hres
        | notReady =>
          obtain ⟨hs', hout, hg⟩ : ClientKeyExchange.algorithmExchange st = s' ∧
              (none : Option SecureContext) = out ∧ (⟨false, false⟩ : Ghost) = g' := by
            cases h; exact ⟨rfl, rfl, rfl⟩
          subst hs' hout hg
          exact ⟨trivial, by intro ctx hc; cases hc⟩
    | keyExchange st =>
      rcases hr : st.poll with err | r
      · rw [step, hr] at h; exact absurd h (by simp [Except.map])
      · rw [step, hr] at h
        simp only [Except.map] at h
        cases r with
        | ready ag =>
          obtain ⟨hs', hout, hg⟩ : ClientKeyExchange.agreed ag = s' ∧
              (none : Option SecureContext) = out ∧ (⟨false, false⟩ : Ghost) = g' := by
            cases h; exact ⟨rfl, rfl, rfl⟩
          subst hs' hout hg
          unfold KeyExchangeState.poll at hr
          rcases hw : st.written with - | -
          · rw [hw] at hr; simp at hr
          · rw [hw] at hr
            simp only [Bool.not_true, Bool.false_eq_true, if_false] at hr
            rcases hres2 : st.res with - | sid
            · rw [hres2] at hr; cases hr
            · rw [hres2] at hr
              obtain hag : ag = ⟨some ⟨st.neg, sid⟩, false⟩ := by cases hr; rfl
              have hver : g.verified = true := hs (by simp [hres2])
              refine ⟨⟨by simp [hver], ?_⟩, by intro ctx hc; cases hc⟩
              rw [hag]
              intro hfalse
              cases hfalse
        | notReady =>
          obtain ⟨hs', hout, hg⟩ : ClientKeyExchange.keyExchange st = s' ∧
              (none : Option SecureContext) = out ∧ (⟨false, false⟩ : Ghost) = g' := by
            cases h; exact ⟨rfl, rfl, rfl⟩
          subst hs' hout hg
          refine ⟨fun hres => ?_, by intro ctx hc; cases hc⟩
          simp only [Bool.or_false]
          exact hs hres
    | agreed st =>
      rcases hr : st.poll with err | r
      · rw [step, hr] at h; exact absurd h (by simp [Except.map])
      · rw [step, hr] at h
        simp only [Except.map] at h
        cases r with
        | ready pair =>
          obtain ⟨ctx0, st2⟩ := pair
          obtain ⟨hs', hout, hg⟩ : ClientKeyExchange.agreed st2 = s' ∧
              (some ctx0 : Option SecureContext) = out ∧ (⟨false, false⟩ : Ghost) = g' := by
            cases h; exact ⟨rfl, rfl, rfl⟩
          subst hs' hout hg
          unfold Agreed.poll at hr
          rcases hk : st.new_key_sent with - | -
          · rw [hk] at hr; simp at hr
          · rw [hk] at hr
            simp only [if_true] at hr
            have hflushed : g.newkeysFlushed = true := hs.2 hk
            refine ⟨⟨by simp [hs.1], fun _ => by simp [hflushed]⟩, ?_⟩
            intro ctx hc
            exact ⟨by simp [hs.1], by simp [hflushed]⟩
        | notReady =>
          obtain ⟨hs', hout, hg⟩ : ClientKeyExchange.agreed st = s' ∧
              (none : Option SecureContext) = out ∧ (⟨false, false⟩ : Ghost) = g' := by
            cases h; exact ⟨rfl, rfl, rfl⟩
          subst hs' hout hg
          refine ⟨⟨by simp [hs.1], fun hk => by simp [hs.2 hk]⟩, by intro ctx hc; cases hc⟩

/-- The run-level invariant: any run from an invariant-satisfying state
that surfaces a `SecureContext` has both ghost flags set. -/
theorem runFrom_inv (crypto : Crypto) (trace : List HEvent) :
    ∀ s g, StateInv s g →
      ∀ s' g' ctx, runFrom crypto s g trace = .ok (s', g', some ctx) →
        g'.verified = true ∧ g'.newkeysFlushed = true := by
  induction trace with
  | nil =>
    intro s g _ s' g' ctx h
    rw [runFrom] at h
    cases h
  | cons e es ih =>
    intro s g hsg s' g' ctx h
    rw [runFrom] at h
    rcases hstep : step crypto s e with err | ⟨s1, out, g1⟩
    · rw [hstep] at h; cases h
    · rw [hstep] at h
      obtain ⟨hinv1, hout1⟩ := step_inv crypto s g e hsg s1 out g1 hstep
      rcases hout : out with - | ctx1
      · rw [hout] at h
        exact ih s1 ⟨g.verified || g1.verified, g.newkeysFlushed || g1.newkeysFlushed⟩
          hinv1 s' g' ctx h
      · rw [hout] at h
        obtain ⟨-, hg, -⟩ : s1 = s' ∧
            (⟨g.verified || g1.verified, g.newkeysFlushed || g1.newkeysFlushed⟩ : Ghost) = g' ∧
            (some ctx1 : Option SecureContext) = some ctx := by
          cases h; exact ⟨rfl, rfl, rfl⟩
        obtain ⟨hv, hf⟩ := hout1 ctx1 (by rw [hout])
        rw [← hg]
        exact ⟨hv, hf⟩

/-- C6: in every reachable configuration of the handshake machine —
starting from a fresh `AlgorithmExchange` state, over any hook schedule and
any crypto services — a `SecureContext` is surfaced only if the server's
signature over the exchange hash verified (the only transition setting the
`verified` flag) and the NEWKEYS packet was flushed (the only transition
setting `newkeysFlushed`); and whenever the verification primitive rejects,
`KeyExchangeState::on_read` terminates with `ServerKeyNotVerified`, so no
`SecureContext` is ever produced. -/
theorem secure_context_requires_verify_and_newkeys :
    (∀ (crypto : Crypto) (v_c v_s i_c : List Nat) (trace : List HEvent) s' g' ctx,
      runFrom crypto (.algorithmExchange ⟨v_c, v_s, i_c, false, none⟩) ⟨false, false⟩ trace
        = .ok (s', g', some ctx) →
      g'.verified = true ∧ g'.newkeysFlushed = true) ∧
    (∀ (crypto : Crypto) (st : KeyExchangeState) (msg : List Nat) reply rest k_s k,
      msg.head? = some SSH_MSG_KEXDH_REPLY →
      decodeKexReply (msg.drop 1) = .ok (reply, rest) →
      serializeServerKey reply.server_key = .ok k_s →
      crypto.agree st.priv_key reply.f = some k →
      (∀ a b c d, crypto.verify a b c d = false) →
      KeyExchangeState.on_read crypto st msg = .error .serverKeyNotVerified) := by
  constructor
  · intro crypto v_c v_s i_c trace s' g' ctx hrun
    exact runFrom_inv crypto trace _ _ (by unfold StateInv; trivial) s' g' ctx hrun
  · intro crypto st msg reply rest k_s k hhead hdec hser hagree hver
    obtain ⟨sk, f0, sg0⟩ := reply
    obtain ⟨e', n'⟩ := sk
    obtain ⟨sgn⟩ := sg0
    unfold KeyExchangeState.on_read
    have hne : (msg.length = 0 || !(msg.head? == some SSH_MSG_KEXDH_REPLY)) = false := by
      cases msg with
      | nil => simp at hhead
      | cons a as =>
        simp only [List.head?_cons, Option.some_inj] at hhead
        simp [hhead]
    rw [hne]
    simp only [Bool.false_eq_true, if_false]
    rw [hdec]
    simp only at hser hagree ⊢
    rw [hser, hagree]
    simp only []
    rw [hver]
    simp

/-- A well-formed KEXINIT payload for the witness: tag byte `20`, a 16-byte
cookie, ten empty name-lists, `first_kex_packet_follows = false` and the
reserved uint32. -/
def kexinitMsg : List Nat :=
  SSH_MSG_KEXINIT :: List.replicate 16 0 ++
    (List.replicate 10 [0, 0, 0, 0]).flatten ++ [0] ++ [0, 0, 0, 0]

/-- A well-formed KEXDH_REPLY payload for the witness: tag byte `31`, an
`ssh-rsa` host-key blob with `e = n = [1]`, `f = [3]`, and an `ssh-rsa`
signature blob with signature bytes `[4]`. -/
def kexreplyMsg : List Nat :=
  SSH_MSG_KEXDH_REPLY ::
    ([0, 0, 0, 21] ++ [0, 0, 0, 7] ++ sshRsaBytes ++ [0, 0, 0, 1, 1] ++ [0, 0, 0, 1, 1]) ++
    [0, 0, 0, 1, 3] ++
    ([0, 0, 0, 16] ++ [0, 0, 0, 7] ++ sshRsaBytes ++ [0, 0, 0, 1, 4])

/-- Concrete crypto services whose verification accepts. -/
def crypto0 : Crypto :=
  { keygen := some (0, [1]),
    agree := fun _ _ => some [2],
    hashFinish := fun _ => [9],
    verify := fun _ _ _ _ => true }

/-- Concrete crypto services whose verification rejects. -/
def cryptoF : Crypto :=
  { crypto0 with verify := fun _ _ _ _ => false }

/-- C6 witness: a complete accepting run (KEXINIT in, keypair, KEXDH_INIT
flushed, verified reply, NEWKEYS flushed, poll) surfaces the context with
both flags set, and the same reply under a rejecting verifier yields
`ServerKeyNotVerified`. -/
theorem secure_context_requires_verify_and_newkeys_witness :
    runFrom crypto0 (.algorithmExchange ⟨[], [], [], false, none⟩) ⟨false, false⟩
        [.onRead kexinitMsg, .poll, .onFlush, .onRead kexreplyMsg, .poll, .onFlush, .poll]
      = .ok (.agreed ⟨none, true⟩, ⟨true, true⟩, some ⟨hardcodedNegotiation, [9]⟩) ∧
    ((⟨true, true⟩ : Ghost).verified = true ∧
      (⟨true, true⟩ : Ghost).newkeysFlushed = true) ∧
    KeyExchangeState.on_read cryptoF ⟨hardcodedNegotiation, [], 0, [1], true, none⟩
        kexreplyMsg
      = .error .serverKeyNotVerified :=
  ⟨rfl,
   secure_context_requires_verify_and_newkeys.1 crypto0 [] [] []
     [.onRead kexinitMsg, .poll, .onFlush, .onRead kexreplyMsg, .poll, .onFlush, .poll]
     (.agreed ⟨none, true⟩) ⟨true, true⟩ ⟨hardcodedNegotiation, [9]⟩ rfl,
   secure_context_requires_verify_and_newkeys.2 cryptoF
     ⟨hardcodedNegotiation, [], 0, [1], true, none⟩ kexreplyMsg
     ⟨.SSH_RSA [1] [1], [3], .SSH_RSA [4]⟩ [] _ [2] rfl rfl rfl rfl
     (fun _ _ _ _ => rfl)⟩

/-- `handshake::ecdh_curve25519_client`'s outbound KEXDH_INIT message:
`serialize_msg(SSH_MSG_KEXDH_INIT, &KexInit { e })`. -/
def ecdh_client_kex_message (e : List Nat) : Except EncoderError (List Nat) :=
  serialize_msg SSH_MSG_KEXDH_INIT (ser_bytes e)

/-- C3: in the `KeyExchange` state the outbound packet payload for
`e = [0xAB]` is `20 ∥ string e` — `KeyExchangeState::wants_write`
serializes with `SSH_MSG_KEXINIT` (20), not byte `30`
(`SSH_MSG_KEXDH_INIT`) as the claim states.  The `ecdh_curve25519_client`
path does emit `30 ∥ string e` (one SSH string, no mpint wrap, no double
serialization). -/
theorem kexdh_init_opcode_wrong :
    KeyExchangeState.wants_write ⟨hardcodedNegotiation, [], 0, [171], false, none⟩
      = some ⟨[20, 0, 0, 0, 1, 171], true⟩ ∧
    ecdh_client_kex_message [171] = .ok [30, 0, 0, 0, 1, 171] ∧
    ([20, 0, 0, 0, 1, 171] : List Nat).head? = some SSH_MSG_KEXINIT ∧
    SSH_MSG_KEXINIT ≠ SSH_MSG_KEXDH_INIT := by
  refine ⟨rfl, rfl, rfl, by decide⟩

/-- C7: the `Agreed` state's NEWKEYS packet is the single byte `21` with
flush requested, but `wants_write` has no `already_sent` gate: after
`on_flush` completes (`new_key_sent = true`) it still requests the same
NEWKEYS write instead of `None`, so a poll after the flush emits a second
NEWKEYS packet. -/
theorem newkeys_requested_again_after_flush :
    Agreed.wants_write ⟨some ⟨hardcodedNegotiation, [9]⟩, false⟩
      = some ⟨[SSH_MSG_NEWKEYS], true⟩ ∧
    (Agreed.on_flush ⟨some ⟨hardcodedNegotiation, [9]⟩, false⟩).new_key_sent = true ∧
    Agreed.wants_write (Agreed.on_flush ⟨some ⟨hardcodedNegotiation, [9]⟩, false⟩)
      = some ⟨[21], true⟩ ∧
    some (PacketWriteRequest.mk [21] true) ≠ (none : Option PacketWriteRequest) := by
  refine ⟨rfl, rfl, rfl, by decide⟩
